import Mathlib

/-!
# Verification of the memory-lane ordering / date-range subsystem

Shallow embedding of `src/services/eventService.ts` and
`src/services/memoryLaneService.ts` (the position allocator, the
promote-to-primary renumbering, the date-range aggregator and the
date-range formatter), together with proofs of the spec's claims about
them.

Modelling conventions:
* a database table is a `List` of records; an `update ... eq(id)` round
  trip maps over the list and rewrites every row whose `id` matches;
* ids are `Nat`, positions are `Int` (JS numbers used as integers),
  dates are `Int` (millisecond timestamps: `new Date(s).getTime()`);
* the Supabase client reports failures as error *values* on each round
  trip (the services' own idiom is `if (error) throw error`); where a
  claim is about failure handling, the outcome of a fallible round trip
  is injected as an explicit parameter;
* `ORDER BY x LIMIT 1` is embedded as the maximum/minimum of the column,
  and an `ORDER BY` of a whole result set as an insertion sort on the
  ordering key.
-/

namespace MemoryLane

/-- An `images` table row: only the columns the ordering logic touches. -/
structure Img where
  id : Nat
  pos : Int
  deriving DecidableEq, Repr

/-- Comparison used by `ORDER BY order_position ASC` on images. -/
def imgLe (a b : Img) : Prop := a.pos ≤ b.pos

instance : DecidableRel imgLe := fun a b => inferInstanceAs (Decidable (a.pos ≤ b.pos))

instance : IsTotal Img imgLe := ⟨fun a b => Int.le_total a.pos b.pos⟩

instance : IsTrans Img imgLe := ⟨fun _ _ _ h h' => le_trans h h'⟩

/-- `SELECT ... ORDER BY order_position ASC` over an image set. -/
def sortImgs (l : List Img) : List Img := List.insertionSort imgLe l

/-- `UPDATE images SET order_position = p WHERE id = i` (one round trip). -/
def writePos (db : List Img) (i : Nat) (p : Int) : List Img :=
  db.map fun x => if x.id = i then { x with pos := p } else x

/-- Position of the row with id `j`, if present (first match). -/
def lookupPos (db : List Img) (j : Nat) : Option Int :=
  (db.find? fun x => x.id = j).map Img.pos

/-- The renumbering loop of `setPrimaryImage`: walk the pre-fetched,
position-sorted image list; every image other than the promoted one is
written position `start`, `start+1`, ... in turn. -/
def renumberLoop (db : List Img) (imageId : Nat) (images : List Img) (start : Int) :
    List Img :=
  match images with
  | [] => db
  | img :: rest =>
    if img.id = imageId then renumberLoop db imageId rest start
    else renumberLoop (writePos db img.id start) imageId rest (start + 1)

/-- `eventService.setPrimaryImage` restricted to the rows of one event:
fetch all images sorted ascending by position, write position 0 to the
target, then renumber every other image 1, 2, ... in ascending order of
its pre-update position. -/
def setPrimaryImage (db : List Img) (imageId : Nat) : List Img :=
  let images := sortImgs db
  let db1 := writePos db imageId 0
  renumberLoop db1 imageId images 1

/-- Maximum of a list of positions, `none` on the empty list
(`ORDER BY order_position DESC LIMIT 1`). -/
def listMax : List Int → Option Int
  | [] => none
  | x :: xs =>
    some (match listMax xs with
          | none => x
          | some m => max x m)

/-- `eventService.addEventImage` on the rows of one event: compute
`max+1` (or 1 on an empty set); when `isPrimary` is set, use position 0
instead and shift every existing image's position up by one (the
`shift_image_positions` RPC and its inline fallback both add 1 to each
existing row); finally insert the new row.  Returns the new table and
the inserted row. -/
def addEventImage (db : List Img) (newId : Nat) (isPrimary : Bool) :
    List Img × Img :=
  let orderPosition : Int :=
    match listMax (db.map Img.pos) with
    | some m => m + 1
    | none => 1
  let orderPosition := if isPrimary then 0 else orderPosition
  let db := if isPrimary then db.map (fun x => { x with pos := x.pos + 1 }) else db
  let newImg : Img := ⟨newId, orderPosition⟩
  (db ++ [newImg], newImg)

theorem lookupPos_writePos (db : List Img) (i : Nat) (p : Int) (j : Nat) :
    lookupPos (writePos db i p) j =
      if j = i then (lookupPos db j).map (fun _ => p) else lookupPos db j := by
  induction db with
  | nil => simp [lookupPos, writePos]
  | cons x xs ih =>
    by_cases hxi : x.id = i
    · by_cases hji : j = i
      · simp [lookupPos, writePos, List.find?, hxi, hji]
      · have hxj : ¬ x.id = j := by omega
        simpa [lookupPos, writePos, List.find?, hxi, hji, hxj,
          show ¬ i = j by omega] using ih
    · by_cases hxj : x.id = j
      · have hji : ¬ j = i := by omega
        simp [lookupPos, writePos, List.find?, hxi, hxj, hji]
      · by_cases hji : j = i
        · simpa [lookupPos, writePos, List.find?, hxi, hxj, hji,
            show ¬ x.id = i by omega] using ih
        · simpa [lookupPos, writePos, List.find?, hxi, hxj, hji] using ih

theorem lookupPos_writePos_ne (db : List Img) (i : Nat) (p : Int) (j : Nat)
    (h : j ≠ i) : lookupPos (writePos db i p) j = lookupPos db j := by
  simp [lookupPos_writePos, h]

theorem lookupPos_some_of_mem (db : List Img) (j : Nat) (h : j ∈ db.map Img.id) :
    ∃ q, lookupPos db j = some q := by
  induction db with
  | nil => simp at h
  | cons x xs ih =>
    by_cases hxj : x.id = j
    · exact ⟨x.pos, by simp [lookupPos, List.find?, hxj]⟩
    · have : j ∈ xs.map Img.id := by
        simp only [List.map_cons, List.mem_cons] at h
        exact h.resolve_left (by omega)
      simpa [lookupPos, List.find?, hxj] using ih this

theorem lookupPos_renumberLoop_target (db : List Img) (imageId : Nat)
    (images : List Img) (start : Int) :
    lookupPos (renumberLoop db imageId images start) imageId = lookupPos db imageId := by
  induction images generalizing db start with
  | nil => rfl
  | cons img rest ih =>
    by_cases h : img.id = imageId
    · simpa [renumberLoop, h] using ih db start
    · rw [renumberLoop]
      simp only [h, if_false]
      rw [ih, lookupPos_writePos_ne]
      omega

theorem lookupPos_renumberLoop_notmem (db : List Img) (imageId : Nat)
    (images : List Img) (start : Int) (j : Nat) (h : j ∉ images.map Img.id) :
    lookupPos (renumberLoop db imageId images start) j = lookupPos db j := by
  induction images generalizing db start with
  | nil => rfl
  | cons img rest ih =>
    simp only [List.map_cons, List.mem_cons, not_or] at h
    by_cases he : img.id = imageId
    · simpa [renumberLoop, he] using ih db start h.2
    · rw [renumberLoop]
      simp only [he, if_false]
      rw [ih _ _ h.2, lookupPos_writePos_ne]
      omega

/-- Default row used with `List.getD` when indexing image lists. -/
def dImg : Img := ⟨0, 0⟩

theorem lookupPos_renumberLoop (db : List Img) (imageId : Nat) (images : List Img)
    (start : Int) (hnd : (images.map Img.id).Nodup) (k : Nat)
    (hk : k < (images.filter (fun x => x.id ≠ imageId)).length) :
    lookupPos (renumberLoop db imageId images start)
        ((images.filter (fun x => x.id ≠ imageId)).getD k dImg).id =
      (lookupPos db
          ((images.filter (fun x => x.id ≠ imageId)).getD k dImg).id).map
        (fun _ => start + k) := by
  induction images generalizing db start k with
  | nil => simp at hk
  | cons img rest ih =>
    simp only [List.map_cons, List.nodup_cons] at hnd
    by_cases he : img.id = imageId
    · have hfilter : (img :: rest).filter (fun x => x.id ≠ imageId) =
          rest.filter (fun x => x.id ≠ imageId) := by
        simp [List.filter_cons, he]
      rw [renumberLoop]
      simp only [he, if_true]
      rw [hfilter] at hk ⊢
      exact ih db start hnd.2 k hk
    · have hfilter : (img :: rest).filter (fun x => x.id ≠ imageId) =
          img :: rest.filter (fun x => x.id ≠ imageId) := by
        simp [List.filter_cons, he]
      rw [renumberLoop]
      simp only [he, if_false]
      rw [hfilter] at hk ⊢
      match k with
      | 0 =>
        rw [List.getD_cons_zero]
        have himg : img.id ∉ rest.map Img.id := hnd.1
        rw [lookupPos_renumberLoop_notmem _ _ _ _ _ himg, lookupPos_writePos]
        simp
      | k + 1 =>
        rw [List.getD_cons_succ]
        have hk' : k < (rest.filter (fun x => x.id ≠ imageId)).length := by
          simpa using hk
        have hne : ((rest.filter (fun x => x.id ≠ imageId)).getD k dImg).id ≠ img.id := by
          intro hcontra
          have hmem : ((rest.filter (fun x => x.id ≠ imageId)).getD k dImg) ∈
              rest.filter (fun x => x.id ≠ imageId) := by
            rw [List.getD_eq_getElem _ _ hk']
            exact List.getElem_mem hk'
          have hmem' : ((rest.filter (fun x => x.id ≠ imageId)).getD k dImg) ∈ rest :=
            List.mem_of_mem_filter hmem
          exact hnd.1 (hcontra ▸ List.mem_map_of_mem Img.id hmem')
        have := ih (writePos db img.id start) (start + 1) hnd.2 k hk'
        rw [lookupPos_writePos_ne _ _ _ _ hne] at this
        rw [this]
        congr 1
        funext
        push_cast
        ring

theorem map_id_writePos (db : List Img) (i : Nat) (p : Int) :
    (writePos db i p).map Img.id = db.map Img.id := by
  rw [writePos, List.map_map]
  apply List.map_congr_left
  intro x _
  by_cases h : x.id = i <;> simp [h]

theorem map_id_renumberLoop (db : List Img) (imageId : Nat) (images : List Img)
    (start : Int) :
    (renumberLoop db imageId images start).map Img.id = db.map Img.id := by
  induction images generalizing db start with
  | nil => rfl
  | cons img rest ih =>
    by_cases h : img.id = imageId
    · simpa [renumberLoop, h] using ih db start
    · rw [renumberLoop]
      simp only [h, if_false]
      rw [ih, map_id_writePos]

theorem map_id_setPrimaryImage (db : List Img) (imageId : Nat) :
    (setPrimaryImage db imageId).map Img.id = db.map Img.id := by
  rw [setPrimaryImage, map_id_renumberLoop, map_id_writePos]

theorem sortImgs_perm (l : List Img) : List.Perm (sortImgs l) l :=
  List.perm_insertionSort imgLe l

theorem sortImgs_sorted (l : List Img) : (sortImgs l).Sorted imgLe :=
  List.sorted_insertionSort imgLe l

theorem lookupPos_of_mem (db : List Img) (x : Img)
    (hnd : (db.map Img.id).Nodup) (hx : x ∈ db) :
    lookupPos db x.id = some x.pos := by
  induction db with
  | nil => simp at hx
  | cons y ys ih =>
    simp only [List.map_cons, List.nodup_cons] at hnd
    rcases List.mem_cons.mp hx with hxy | hxs
    · simp [lookupPos, List.find?, hxy]
    · by_cases hyx : y.id = x.id
      · exact absurd (hyx ▸ List.mem_map_of_mem Img.id hxs) hnd.1
      · simpa [lookupPos, List.find?, hyx] using ih hnd.2 hxs

theorem length_filter_id_eq_one (db : List Img) (i : Nat)
    (hnd : (db.map Img.id).Nodup) (hmem : i ∈ db.map Img.id) :
    (db.filter (fun x => x.id = i)).length = 1 := by
  induction db with
  | nil => simp at hmem
  | cons x xs ih =>
    simp only [List.map_cons, List.nodup_cons] at hnd
    by_cases hx : x.id = i
    · have hnone : xs.filter (fun y => y.id = i) = [] := by
        apply List.filter_eq_nil_iff.mpr
        intro y hy
        simp only [decide_eq_true_eq]
        intro hyi
        exact hnd.1 (by rw [← hx] at hyi; exact hyi ▸ List.mem_map_of_mem Img.id hy)
      simp [List.filter_cons, hx, hnone]
    · have hmem' : i ∈ xs.map Img.id := by
        simp only [List.map_cons, List.mem_cons] at hmem
        exact hmem.resolve_left (by omega)
      simpa [List.filter_cons, hx] using ih hnd.2 hmem'

theorem setPrimaryImage_eq (db : List Img) (imageId : Nat) :
    setPrimaryImage db imageId =
      renumberLoop (writePos db imageId 0) imageId (sortImgs db) 1 := rfl

theorem lookupPos_setPrimaryImage_target (db : List Img) (imageId : Nat)
    (hmem : imageId ∈ db.map Img.id) :
    lookupPos (setPrimaryImage db imageId) imageId = some 0 := by
  obtain ⟨q, hq⟩ := lookupPos_some_of_mem db imageId hmem
  rw [setPrimaryImage_eq, lookupPos_renumberLoop_target, lookupPos_writePos]
  simp [hq]

theorem lookupPos_setPrimaryImage_other (db : List Img) (imageId : Nat)
    (hnd : (db.map Img.id).Nodup) (k : Nat)
    (hk : k < ((sortImgs db).filter (fun x => x.id ≠ imageId)).length) :
    lookupPos (setPrimaryImage db imageId)
        (((sortImgs db).filter (fun x => x.id ≠ imageId)).getD k dImg).id =
      some ((1 : Int) + k) := by
  set e := ((sortImgs db).filter (fun x => x.id ≠ imageId)).getD k dImg with he
  have hmemf : e ∈ (sortImgs db).filter (fun x => x.id ≠ imageId) := by
    rw [he, List.getD_eq_getElem _ _ hk]
    exact List.getElem_mem hk
  have hmemsort : e ∈ sortImgs db := List.mem_of_mem_filter hmemf
  have heid : e.id ≠ imageId := by simpa using List.of_mem_filter hmemf
  have hmemdb : e ∈ db := (sortImgs_perm db).mem_iff.mp hmemsort
  have hndsort : ((sortImgs db).map Img.id).Nodup :=
    (((sortImgs_perm db).map Img.id).nodup_iff).mpr hnd
  have h := lookupPos_renumberLoop (writePos db imageId 0) imageId (sortImgs db) 1
    hndsort k hk
  rw [← he] at h
  rw [setPrimaryImage_eq, h, lookupPos_writePos_ne _ _ _ _ heid,
    lookupPos_of_mem db e hnd hmemdb]
  rfl

theorem setPrimaryImage_pos_zero_iff (db : List Img) (imageId : Nat)
    (hnd : (db.map Img.id).Nodup) (hmem : imageId ∈ db.map Img.id) :
    ∀ x ∈ setPrimaryImage db imageId, (x.pos = 0 ↔ x.id = imageId) := by
  intro x hx
  have hids : (setPrimaryImage db imageId).map Img.id = db.map Img.id :=
    map_id_setPrimaryImage db imageId
  have hndf : ((setPrimaryImage db imageId).map Img.id).Nodup := by
    rw [hids]; exact hnd
  have hlx : lookupPos (setPrimaryImage db imageId) x.id = some x.pos :=
    lookupPos_of_mem _ x hndf hx
  constructor
  · intro hpos
    by_contra hne
    have hxid : x.id ∈ db.map Img.id := by
      rw [← hids]; exact List.mem_map_of_mem Img.id hx
    have hxid' : x.id ∈ (sortImgs db).map Img.id :=
      (((sortImgs_perm db).map Img.id).mem_iff).mpr hxid
    obtain ⟨y, hy, hyid⟩ := List.mem_map.mp hxid'
    have hyf : y ∈ (sortImgs db).filter (fun z => z.id ≠ imageId) :=
      List.mem_filter.mpr ⟨hy, by simp [hyid]; omega⟩
    obtain ⟨k, hk, hget⟩ := List.mem_iff_getElem.mp hyf
    have hother := lookupPos_setPrimaryImage_other db imageId hnd k hk
    rw [List.getD_eq_getElem _ _ hk, hget, hyid, hlx] at hother
    have : x.pos = (1 : Int) + k := by injection hother
    omega
  · intro hid
    have htgt := lookupPos_setPrimaryImage_target db imageId hmem
    rw [hid] at hlx
    rw [hlx] at htgt
    injection htgt

theorem setPrimaryImage_unique_zero (db : List Img) (imageId : Nat)
    (hnd : (db.map Img.id).Nodup) (hmem : imageId ∈ db.map Img.id) :
    ((setPrimaryImage db imageId).filter (fun x => x.pos = 0)).length = 1 := by
  have hiff := setPrimaryImage_pos_zero_iff db imageId hnd hmem
  have hcongr : (setPrimaryImage db imageId).filter (fun x => x.pos = 0) =
      (setPrimaryImage db imageId).filter (fun x => x.id = imageId) := by
    apply List.filter_congr
    intro x hx
    exact decide_eq_decide.mpr (hiff x hx)
  rw [hcongr]
  apply length_filter_id_eq_one
  · rw [map_id_setPrimaryImage]; exact hnd
  · rw [map_id_setPrimaryImage]; exact hmem

theorem others_sorted (db : List Img) (imageId : Nat) :
    ((sortImgs db).filter (fun x => x.id ≠ imageId)).Sorted imgLe :=
  List.Pairwise.sublist (List.filter_sublist (sortImgs db)) (sortImgs_sorted db)

theorem others_perm (db : List Img) (imageId : Nat) :
    List.Perm ((sortImgs db).filter (fun x => x.id ≠ imageId))
      (db.filter (fun x => x.id ≠ imageId)) :=
  (sortImgs_perm db).filter _

/-- **C1** (amended): after `setPrimaryImage` on an existing image of an event
whose rows have pairwise-distinct ids, the promoted image has position 0,
exactly one sibling holds position 0, and every other sibling is remapped to
the contiguous sequence 1, 2, 3, ... in ascending order of its prior position
(a full renumbering that removes any prior gaps or duplicates).
`addEventImage` with `isPrimary = true`, in contrast, gives the new image
position 0 but merely increments every existing sibling's position by one,
preserving relative order and any prior gaps without renumbering. -/
theorem promote_to_primary_renumbering (db : List Img) (imageId : Nat)
    (hnd : (db.map Img.id).Nodup) (hmem : imageId ∈ db.map Img.id)
    (db2 : List Img) (newId : Nat) :
    lookupPos (setPrimaryImage db imageId) imageId = some 0 ∧
    ((setPrimaryImage db imageId).filter (fun x => x.pos = 0)).length = 1 ∧
    ((sortImgs db).filter (fun x => x.id ≠ imageId)).Sorted imgLe ∧
    List.Perm ((sortImgs db).filter (fun x => x.id ≠ imageId))
      (db.filter (fun x => x.id ≠ imageId)) ∧
    (∀ k, k < ((sortImgs db).filter (fun x => x.id ≠ imageId)).length →
      lookupPos (setPrimaryImage db imageId)
          (((sortImgs db).filter (fun x => x.id ≠ imageId)).getD k dImg).id =
        some ((1 : Int) + k)) ∧
    (addEventImage db2 newId true).1 =
      db2.map (fun x => { x with pos := x.pos + 1 }) ++ [⟨newId, 0⟩] ∧
    (addEventImage db2 newId true).2.pos = 0 :=
  ⟨lookupPos_setPrimaryImage_target db imageId hmem,
   setPrimaryImage_unique_zero db imageId hnd hmem,
   others_sorted db imageId,
   others_perm db imageId,
   fun k hk => lookupPos_setPrimaryImage_other db imageId hnd k hk,
   rfl, rfl⟩

/-- Witness for C1's amended theorem at a concrete input: promote image 2 in
an event holding images 1 and 2, and primary-insert image 9 into an event
holding image 7 at position 3. -/
theorem promote_to_primary_renumbering_witness :
    lookupPos (setPrimaryImage [⟨1, 0⟩, ⟨2, 1⟩] 2) 2 = some 0 ∧
    ((setPrimaryImage [⟨1, 0⟩, ⟨2, 1⟩] 2).filter (fun x => x.pos = 0)).length = 1 ∧
    ((sortImgs [⟨1, 0⟩, ⟨2, 1⟩]).filter (fun x => x.id ≠ 2)).Sorted imgLe ∧
    List.Perm ((sortImgs [⟨1, 0⟩, ⟨2, 1⟩]).filter (fun x => x.id ≠ 2))
      (([⟨1, 0⟩, ⟨2, 1⟩] : List Img).filter (fun x => x.id ≠ 2)) ∧
    (∀ k, k < ((sortImgs [⟨1, 0⟩, ⟨2, 1⟩]).filter (fun x => x.id ≠ 2)).length →
      lookupPos (setPrimaryImage [⟨1, 0⟩, ⟨2, 1⟩] 2)
          (((sortImgs [⟨1, 0⟩, ⟨2, 1⟩]).filter (fun x => x.id ≠ 2)).getD k dImg).id =
        some ((1 : Int) + k)) ∧
    (addEventImage [⟨7, 3⟩] 9 true).1 =
      ([⟨7, 3⟩] : List Img).map (fun x => { x with pos := x.pos + 1 }) ++ [⟨9, 0⟩] ∧
    (addEventImage [⟨7, 3⟩] 9 true).2.pos = 0 :=
  promote_to_primary_renumbering [⟨1, 0⟩, ⟨2, 1⟩] 2 (by decide) (by decide) [⟨7, 3⟩] 9

/-- **C1** counterexample: the claim as stated also covers `addEventImage`
with `isPrimary = true`, demanding a contiguous renumbering 1, 2, ... of the
other siblings.  Concretely, an event holds a single image (id 1) at
position 1 (the position `addEventImage` itself assigns to the first
non-primary image); primary-inserting image 2 leaves image 1 at position 2,
not at the contiguous position 1 the claim requires. -/
theorem addEventImage_primary_no_renumber :
    (addEventImage [⟨1, 1⟩] 2 true).1 = [⟨1, 2⟩, ⟨2, 0⟩] ∧
    ((addEventImage [⟨1, 1⟩] 2 true).1.filter (fun x => x.id ≠ 2)).map Img.pos ≠
      [1] := by
  decide

/-- An `events` table row: only the columns the ordering / date-range logic
touches.  `deleted = true` models a non-null `deleted_at`; `date` is
`event_date` as a timestamp (`new Date(s).getTime()`). -/
structure Ev where
  id : Nat
  lane : Nat
  pos : Int
  date : Int
  deleted : Bool
  deriving DecidableEq, Repr

/-- The non-deleted events of a lane
(`eq('memory_lane_id', laneId).is('deleted_at', null)`). -/
def laneSiblings (db : List Ev) (laneId : Nat) : List Ev :=
  db.filter fun e => e.lane = laneId ∧ e.deleted = false

/-- The position `createEvent` assigns.  `suppliedPos` is the caller's
`order_position` field; the code's guard is the JS falsiness test
`!event.order_position`, which treats an absent field *and* an explicit 0
alike, and then reads the non-deleted siblings' maximum position
(`ORDER BY order_position DESC LIMIT 1`), assigning `max + 1`
(1 when the lane has no events). -/
def newEventPos (db : List Ev) (laneId : Nat) (suppliedPos : Option Int) : Int :=
  if suppliedPos = none ∨ suppliedPos = some 0 then
    match listMax ((laneSiblings db laneId).map Ev.pos) with
    | some m => m + 1
    | none => 1
  else suppliedPos.getD 0

/-- `eventService.createEvent`, position-allocation and insert step (the
date-range recompute that follows is modelled separately).  Returns the new
table and the inserted row. -/
def createEvent (db : List Ev) (newId laneId : Nat) (suppliedPos : Option Int)
    (date : Int) : List Ev × Ev :=
  let p := newEventPos db laneId suppliedPos
  let ev : Ev := ⟨newId, laneId, p, date, false⟩
  (db ++ [ev], ev)

theorem listMax_cons (a : Int) (as : List Int) :
    listMax (a :: as) =
      some (match listMax as with | none => a | some m => max a m) := rfl

theorem listMax_eq_none_iff (l : List Int) : listMax l = none ↔ l = [] := by
  cases l <;> simp [listMax]

theorem listMax_cons_none (a : Int) (as : List Int) (has : listMax as = none) :
    listMax (a :: as) = some a := by
  rw [listMax_cons, has]

theorem listMax_cons_some (a : Int) (as : List Int) (m' : Int)
    (has : listMax as = some m') : listMax (a :: as) = some (max a m') := by
  rw [listMax_cons, has]

theorem listMax_le (l : List Int) (m : Int) (h : listMax l = some m) :
    ∀ x ∈ l, x ≤ m := by
  induction l generalizing m with
  | nil => simp [listMax] at h
  | cons a as ih =>
    cases has : listMax as with
    | none =>
      rw [listMax_cons_none a as has] at h
      injection h with h
      have : as = [] := (listMax_eq_none_iff as).mp has
      subst this
      simp [h]
    | some m' =>
      rw [listMax_cons_some a as m' has] at h
      injection h with h
      intro x hx
      rcases List.mem_cons.mp hx with hxa | hxs
      · subst hxa
        rw [← h]
        exact le_max_left _ _
      · rw [← h]
        exact le_trans (ih m' has x hxs) (le_max_right _ _)

theorem listMax_mem (l : List Int) (m : Int) (h : listMax l = some m) : m ∈ l := by
  induction l generalizing m with
  | nil => simp [listMax] at h
  | cons a as ih =>
    cases has : listMax as with
    | none =>
      rw [listMax_cons_none a as has] at h
      injection h with h
      simp [h]
    | some m' =>
      rw [listMax_cons_some a as m' has] at h
      injection h with h
      rcases max_choice a m' with hc | hc <;> rw [hc] at h
      · simp [h]
      · exact List.mem_cons_of_mem a (h ▸ ih m' has)

theorem newEventPos_gt (db : List Ev) (L : Nat) :
    ∀ e ∈ laneSiblings db L, e.pos < newEventPos db L none := by
  intro e he
  cases hm : listMax ((laneSiblings db L).map Ev.pos) with
  | none =>
    rw [listMax_eq_none_iff, List.map_eq_nil_iff] at hm
    rw [hm] at he
    simp at he
  | some m =>
    have hle := listMax_le _ m hm e.pos (List.mem_map_of_mem Ev.pos he)
    simp [newEventPos, hm]
    omega

/-- **C2**: for every append of a new sibling with no explicit position
(`createEvent` without `order_position`, `addEventImage` with
`isPrimary = false`), the assigned position is 1 when the non-deleted
sibling set read at that moment is empty, and the maximum existing
non-deleted sibling position plus 1 otherwise — hence strictly greater
than every existing sibling's position at the moment of the read. -/
theorem append_assigns_max_plus_one (db : List Ev) (newId laneId : Nat)
    (date : Int) (db2 : List Img) (newImgId : Nat) :
    (laneSiblings db laneId = [] →
      (createEvent db newId laneId none date).2.pos = 1) ∧
    (∀ m, listMax ((laneSiblings db laneId).map Ev.pos) = some m →
      (createEvent db newId laneId none date).2.pos = m + 1) ∧
    (∀ e ∈ laneSiblings db laneId,
      e.pos < (createEvent db newId laneId none date).2.pos) ∧
    (db2 = [] → (addEventImage db2 newImgId false).2.pos = 1) ∧
    (∀ m, listMax (db2.map Img.pos) = some m →
      (addEventImage db2 newImgId false).2.pos = m + 1) ∧
    (∀ x ∈ db2, x.pos < (addEventImage db2 newImgId false).2.pos) := by
  refine ⟨?_, ?_, ?_, ?_, ?_, ?_⟩
  · intro hempty
    simp [createEvent, newEventPos, hempty, listMax]
  · intro m hm
    simp [createEvent, newEventPos, hm]
  · exact fun e he => newEventPos_gt db laneId e he
  · intro hempty
    simp [addEventImage, hempty, listMax]
  · intro m hm
    simp [addEventImage, hm]
  · intro x hx
    cases hm : listMax (db2.map Img.pos) with
    | none =>
      rw [listMax_eq_none_iff, List.map_eq_nil_iff] at hm
      rw [hm] at hx
      simp at hx
    | some m =>
      have hle := listMax_le _ m hm x.pos (List.mem_map_of_mem Img.pos hx)
      simp only [addEventImage, hm]
      simp
      omega

/-- Witness for C2 at concrete inputs: a lane with positions {1, 5} appends
at 6; an empty image set appends at 1; image position 2 appends above 2. -/
theorem append_assigns_max_plus_one_witness :
    (createEvent [⟨1, 0, 1, 7, false⟩, ⟨2, 0, 5, 8, false⟩] 3 0 none 9).2.pos =
      5 + 1 ∧
    (⟨1, 0, 1, 7, false⟩ : Ev).pos <
      (createEvent [⟨1, 0, 1, 7, false⟩, ⟨2, 0, 5, 8, false⟩] 3 0 none 9).2.pos ∧
    (addEventImage [] 4 false).2.pos = 1 ∧
    (⟨9, 2⟩ : Img).pos < (addEventImage [⟨9, 2⟩] 4 false).2.pos := by
  have h := append_assigns_max_plus_one [⟨1, 0, 1, 7, false⟩, ⟨2, 0, 5, 8, false⟩]
    3 0 9 [] 4
  have h2 := append_assigns_max_plus_one [⟨1, 0, 1, 7, false⟩, ⟨2, 0, 5, 8, false⟩]
    3 0 9 [⟨9, 2⟩] 4
  exact ⟨h.2.1 5 (by decide), h.2.2.1 _ (by decide), h.2.2.2.1 rfl,
    h2.2.2.2.2.2 _ (by decide)⟩

/-- A finite sequence of append operations: each entry `(newId, laneId, date)`
runs `createEvent` with no explicit position. -/
def applyAppends (db : List Ev) (ops : List (Nat × Nat × Int)) : List Ev :=
  ops.foldl (fun d o => (createEvent d o.1 o.2.1 none o.2.2).1) db

theorem laneSiblings_append_row (db : List Ev) (e : Ev) (L : Nat) :
    laneSiblings (db ++ [e]) L =
      laneSiblings db L ++ if e.lane = L ∧ e.deleted = false then [e] else [] := by
  rw [laneSiblings, List.filter_append]
  congr 1
  by_cases h : e.lane = L ∧ e.deleted = false <;> simp [h]

theorem nodup_after_create (db : List Ev) (L newId laneId : Nat) (date : Int)
    (h : ((laneSiblings db L).map Ev.pos).Nodup) :
    ((laneSiblings (createEvent db newId laneId none date).1 L).map Ev.pos).Nodup := by
  have hrow : (createEvent db newId laneId none date).1 =
      db ++ [⟨newId, laneId, newEventPos db laneId none, date, false⟩] := rfl
  rw [hrow, laneSiblings_append_row]
  by_cases hL : laneId = L
  · subst hL
    rw [if_pos (by simp), List.map_append]
    rw [List.nodup_append]
    refine ⟨h, List.nodup_singleton _, ?_⟩
    intro p hp hq
    simp only [List.map_cons, List.map_nil, List.mem_singleton] at hq
    obtain ⟨e, he, hep⟩ := List.mem_map.mp hp
    have := newEventPos_gt db laneId e he
    rw [hep] at this
    omega
  · have : ¬ ((⟨newId, laneId, newEventPos db laneId none, date, false⟩ : Ev).lane = L ∧
        (⟨newId, laneId, newEventPos db laneId none, date, false⟩ : Ev).deleted = false) := by
      simp [hL]
    rw [if_neg this]
    simpa using h

theorem addImage_pos_gt (db : List Img) (newId : Nat) :
    ∀ x ∈ db, x.pos < (addEventImage db newId false).2.pos := by
  intro x hx
  cases hm : listMax (db.map Img.pos) with
  | none =>
    rw [listMax_eq_none_iff, List.map_eq_nil_iff] at hm
    rw [hm] at hx
    simp at hx
  | some m =>
    have hle := listMax_le _ m hm x.pos (List.mem_map_of_mem Img.pos hx)
    simp only [addEventImage, hm]
    simp
    omega

/-- A finite sequence of image append operations: each entry is the id of a
new image added with `addEventImage` and `isPrimary = false`. -/
def applyImgAppends (db : List Img) (newIds : List Nat) : List Img :=
  newIds.foldl (fun d i => (addEventImage d i false).1) db

theorem nodup_after_addImage (db : List Img) (newId : Nat)
    (h : (db.map Img.pos).Nodup) :
    ((addEventImage db newId false).1.map Img.pos).Nodup := by
  have hrow : (addEventImage db newId false).1 =
      db ++ [(addEventImage db newId false).2] := rfl
  rw [hrow, List.map_append, List.nodup_append]
  refine ⟨h, List.nodup_singleton _, ?_⟩
  intro p hp hq
  simp only [List.map_cons, List.map_nil, List.mem_singleton] at hq
  obtain ⟨x, hx, hxp⟩ := List.mem_map.mp hp
  have := addImage_pos_gt db newId x hx
  rw [hxp] at this
  omega

/-- **C3**: for every sibling set — events under a lane, or images under an
event — whose non-deleted members initially have pairwise-distinct
positions, after any finite sequence of sequential append operations all
non-deleted siblings still have pairwise-distinct positions.  (Images have
no soft-delete column, so for them the whole row set is the non-deleted
sibling set.) -/
theorem appends_preserve_distinct (ops : List (Nat × Nat × Int)) (db : List Ev)
    (L : Nat) (db2 : List Img) (newIds : List Nat)
    (h : ((laneSiblings db L).map Ev.pos).Nodup)
    (h2 : (db2.map Img.pos).Nodup) :
    ((laneSiblings (applyAppends db ops) L).map Ev.pos).Nodup ∧
    ((applyImgAppends db2 newIds).map Img.pos).Nodup := by
  constructor
  · induction ops generalizing db with
    | nil => exact h
    | cons o os ih =>
      show ((laneSiblings
          (applyAppends (createEvent db o.1 o.2.1 none o.2.2).1 os) L).map Ev.pos).Nodup
      exact ih _ (nodup_after_create db L o.1 o.2.1 o.2.2 h)
  · induction newIds generalizing db2 with
    | nil => exact h2
    | cons i is ih =>
      show ((applyImgAppends (addEventImage db2 i false).1 is).map Img.pos).Nodup
      exact ih _ (nodup_after_addImage db2 i h2)

/-- Witness for C3: a lane holding position 3 takes two event appends, and
an event whose images sit at positions {2, 1} takes two image appends; both
sibling sets keep pairwise-distinct positions. -/
theorem appends_preserve_distinct_witness :
    ((laneSiblings (applyAppends [⟨1, 0, 3, 0, false⟩] [(2, 0, 1), (3, 0, 2)]) 0).map
      Ev.pos).Nodup ∧
    ((applyImgAppends [⟨1, 2⟩, ⟨2, 1⟩] [3, 4]).map Img.pos).Nodup :=
  appends_preserve_distinct [(2, 0, 1), (3, 0, 2)] [⟨1, 0, 3, 0, false⟩] 0
    [⟨1, 2⟩, ⟨2, 1⟩] [3, 4] (by decide) (by decide)

/-- **C10** (amended): `createEvent` with an explicitly supplied
`order_position = 0` discards the supplied value — the guard is the JS
falsiness test `!event.order_position` — and creates the event at
`max + 1` (or 1 in an empty lane), exactly as if no position had been
supplied; hence the created position is never 0 provided every existing
non-deleted sibling's position is nonnegative. -/
theorem createEvent_discards_zero (db : List Ev) (newId laneId : Nat) (date : Int) :
    createEvent db newId laneId (some 0) date = createEvent db newId laneId none date ∧
    (laneSiblings db laneId = [] →
      (createEvent db newId laneId (some 0) date).2.pos = 1) ∧
    (∀ m, listMax ((laneSiblings db laneId).map Ev.pos) = some m →
      (createEvent db newId laneId (some 0) date).2.pos = m + 1) ∧
    ((∀ e ∈ laneSiblings db laneId, 0 ≤ e.pos) →
      (createEvent db newId laneId (some 0) date).2.pos ≠ 0) := by
  refine ⟨by simp [createEvent, newEventPos], ?_, ?_, ?_⟩
  · intro hempty
    simp [createEvent, newEventPos, hempty, listMax]
  · intro m hm
    simp [createEvent, newEventPos, hm]
  · intro hnonneg
    cases hm : listMax ((laneSiblings db laneId).map Ev.pos) with
    | none =>
      simp [createEvent, newEventPos, hm]
    | some m =>
      have hmem := listMax_mem _ m hm
      obtain ⟨e, he, hep⟩ := List.mem_map.mp hmem
      have := hnonneg e he
      simp [createEvent, newEventPos, hm]
      omega

/-- Witness for C10's amended theorem: a lane whose only sibling sits at
position 5 (so the maximum is 5 and all positions are nonnegative). -/
theorem createEvent_discards_zero_witness :
    (createEvent [⟨1, 0, 5, 0, false⟩] 2 0 (some 0) 0).2.pos = 5 + 1 ∧
    (createEvent [⟨1, 0, 5, 0, false⟩] 2 0 (some 0) 0).2.pos ≠ 0 := by
  have h := createEvent_discards_zero [⟨1, 0, 5, 0, false⟩] 2 0 0
  exact ⟨h.2.2.1 5 (by decide), h.2.2.2 (by decide)⟩

/-- **C10** counterexample: "no event can ever be created at position 0
through createEvent" fails once a sibling holds a negative position (which
`reorderEvents` permits, applying caller-supplied positions unvalidated):
with the lane's only non-deleted sibling at position -1, a call supplying
`order_position = 0` creates the event at `max + 1 = 0`. -/
theorem createEvent_zero_reachable :
    (createEvent [⟨1, 0, -1, 0, false⟩] 2 0 (some 0) 0).2.pos = 0 := by decide

/-- A `memory_lanes` row: the derived date-range columns
(`date_range_start`, `date_range_end`), `none` modelling SQL null. -/
structure Lane where
  rangeStart : Option Int
  rangeEnd : Option Int
  deriving DecidableEq, Repr

/-- Comparison used by `ORDER BY order_position ASC` on events. -/
def evLe (a b : Ev) : Prop := a.pos ≤ b.pos

instance : DecidableRel evLe := fun a b => inferInstanceAs (Decidable (a.pos ≤ b.pos))

instance : IsTotal Ev evLe := ⟨fun a b => Int.le_total a.pos b.pos⟩

instance : IsTrans Ev evLe := ⟨fun _ _ _ h h' => le_trans h h'⟩

/-- `memoryLaneService.getMemoryLaneEvents`: the lane's non-deleted events,
ordered ascending by `order_position`. -/
def getMemoryLaneEvents (db : List Ev) (laneId : Nat) : List Ev :=
  List.insertionSort evLe (laneSiblings db laneId)

/-- `eventDates.sort((a, b) => a.getTime() - b.getTime())`. -/
def sortDates (l : List Int) : List Int := List.insertionSort (· ≤ ·) l

/-- `memoryLaneService.updateDateRange`: fetch the lane's non-deleted
events; with no events clear both bounds to null; otherwise sort the event
dates ascending and persist the earliest as `date_range_start` and the
latest as `date_range_end`.  Returns the `(start, end)` pair the function
returns together with the lane row after the write. -/
def updateDateRange (db : List Ev) (lane : Lane) (laneId : Nat) :
    (Option Int × Option Int) × Lane :=
  let events := getMemoryLaneEvents db laneId
  if events.isEmpty then
    ((none, none), { lane with rangeStart := none, rangeEnd := none })
  else
    match sortDates (events.map Ev.date) with
    | [] => ((none, none), { lane with rangeStart := none, rangeEnd := none })
    | d :: ds =>
      ((some d, some (ds.getLastD d)),
       { lane with rangeStart := some d, rangeEnd := some (ds.getLastD d) })

theorem sortDates_sorted (l : List Int) : (sortDates l).Sorted (· ≤ ·) :=
  List.sorted_insertionSort _ l

theorem sortDates_perm (l : List Int) : List.Perm (sortDates l) l :=
  List.perm_insertionSort _ l

theorem sorted_le_getLastD (d : Int) (ds : List Int)
    (h : List.Sorted (· ≤ ·) (d :: ds)) : ∀ x ∈ d :: ds, x ≤ ds.getLastD d := by
  induction ds generalizing d with
  | nil => simp
  | cons e es ih =>
    intro x hx
    rw [List.getLastD_cons]
    rcases List.mem_cons.mp hx with hxd | hxs
    · subst hxd
      have hde : x ≤ e := (List.sorted_cons.mp h).1 e (List.mem_cons_self e es)
      have := ih e (List.sorted_cons.mp h).2 e (List.mem_cons_self e es)
      omega
    · exact ih e (List.sorted_cons.mp h).2 x hxs

theorem getLastD_mem_cons (d : Int) (ds : List Int) : ds.getLastD d ∈ d :: ds := by
  induction ds generalizing d with
  | nil => simp
  | cons e es ih =>
    rw [List.getLastD_cons]
    exact List.mem_cons_of_mem d (ih e)

theorem getMemoryLaneEvents_perm (db : List Ev) (laneId : Nat) :
    List.Perm (getMemoryLaneEvents db laneId) (laneSiblings db laneId) :=
  List.perm_insertionSort _ _

theorem updateDateRange_eq_spec (db : List Ev) (lane : Lane) (laneId : Nat) :
    updateDateRange db lane laneId =
      (match sortDates ((getMemoryLaneEvents db laneId).map Ev.date) with
       | [] => ((none, none), { lane with rangeStart := none, rangeEnd := none })
       | d :: ds =>
         ((some d, some (ds.getLastD d)),
          { lane with rangeStart := some d, rangeEnd := some (ds.getLastD d) })) := by
  by_cases hev : getMemoryLaneEvents db laneId = []
  · simp [updateDateRange, hev, sortDates, List.insertionSort]
  · have hemp : (getMemoryLaneEvents db laneId).isEmpty = false := by
      simpa [List.isEmpty_iff] using hev
    simp only [updateDateRange, hemp, Bool.false_eq_true, if_false]

/-- **C4**: `updateDateRange` sets both bounds to null exactly when the lane
has zero non-deleted events, and otherwise returns and stores
`date_range_start` = the minimum and `date_range_end` = the maximum
`event_date` over the non-deleted events, independent of the order in which
the events sit in the table. -/
theorem updateDateRange_bounds (db : List Ev) (lane : Lane) (laneId : Nat) :
    (laneSiblings db laneId = [] →
      updateDateRange db lane laneId =
        ((none, none), { lane with rangeStart := none, rangeEnd := none })) ∧
    (laneSiblings db laneId ≠ [] →
      ∃ m M, (updateDateRange db lane laneId).1 = (some m, some M) ∧
        (updateDateRange db lane laneId).2.rangeStart = some m ∧
        (updateDateRange db lane laneId).2.rangeEnd = some M ∧
        m ∈ (laneSiblings db laneId).map Ev.date ∧
        M ∈ (laneSiblings db laneId).map Ev.date ∧
        (∀ x ∈ (laneSiblings db laneId).map Ev.date, m ≤ x ∧ x ≤ M)) ∧
    (∀ db', List.Perm db db' →
      (updateDateRange db lane laneId).1 = (updateDateRange db' lane laneId).1) := by
  refine ⟨?_, ?_, ?_⟩
  · intro hempty
    have hev : getMemoryLaneEvents db laneId = [] :=
      List.Perm.eq_nil (hempty ▸ getMemoryLaneEvents_perm db laneId)
    simp [updateDateRange, hev]
  · intro hne
    have hperm := getMemoryLaneEvents_perm db laneId
    cases hs : sortDates ((getMemoryLaneEvents db laneId).map Ev.date) with
    | nil =>
      have h1 := sortDates_perm ((getMemoryLaneEvents db laneId).map Ev.date)
      rw [hs] at h1
      have h2 : (getMemoryLaneEvents db laneId).map Ev.date = [] :=
        List.Perm.eq_nil h1.symm
      have h3 : getMemoryLaneEvents db laneId = [] := List.map_eq_nil_iff.mp h2
      exact absurd (List.Perm.eq_nil (h3 ▸ hperm.symm)).symm
        (fun hcontra => hne hcontra.symm)
    | cons d ds =>
      have hdatesperm : List.Perm (d :: ds) ((laneSiblings db laneId).map Ev.date) := by
        have h1 := sortDates_perm ((getMemoryLaneEvents db laneId).map Ev.date)
        rw [hs] at h1
        exact h1.trans (hperm.map Ev.date)
      have hsorted : (d :: ds).Sorted (· ≤ ·) := hs ▸ sortDates_sorted _
      refine ⟨d, ds.getLastD d, ?_, ?_, ?_, ?_, ?_, ?_⟩
      · rw [updateDateRange_eq_spec, hs]
      · rw [updateDateRange_eq_spec, hs]
      · rw [updateDateRange_eq_spec, hs]
      · exact hdatesperm.mem_iff.mp (List.mem_cons_self d ds)
      · exact hdatesperm.mem_iff.mp (getLastD_mem_cons d ds)
      · intro x hx
        have hxin : x ∈ d :: ds := hdatesperm.mem_iff.mpr hx
        constructor
        · rcases List.mem_cons.mp hxin with hxd | hxs
          · exact le_of_eq hxd.symm
          · exact List.rel_of_sorted_cons hsorted x hxs
        · exact sorted_le_getLastD d ds hsorted x hxin
  · intro db' hdb
    have hsibperm : List.Perm (laneSiblings db laneId) (laneSiblings db' laneId) :=
      hdb.filter _
    have hdates : List.Perm ((getMemoryLaneEvents db laneId).map Ev.date)
        ((getMemoryLaneEvents db' laneId).map Ev.date) :=
      (((getMemoryLaneEvents_perm db laneId).map Ev.date).trans
        (hsibperm.map Ev.date)).trans
        ((getMemoryLaneEvents_perm db' laneId).map Ev.date).symm
    have hsorteq : sortDates ((getMemoryLaneEvents db laneId).map Ev.date) =
        sortDates ((getMemoryLaneEvents db' laneId).map Ev.date) :=
      List.eq_of_perm_of_sorted
        ((sortDates_perm _).trans (hdates.trans (sortDates_perm _).symm))
        (sortDates_sorted _) (sortDates_sorted _)
    rw [updateDateRange_eq_spec, updateDateRange_eq_spec, hsorteq]

/-- Witness for C4 at the spec's own P3 example (dates as day numbers
105 = 2023-01-05, 620 = 2023-06-20, 301 = 2023-03-01) plus an empty lane. -/
theorem updateDateRange_bounds_witness :
    laneSiblings [⟨1, 0, 1, 301, false⟩, ⟨2, 0, 2, 105, false⟩,
        ⟨3, 0, 3, 620, false⟩] 0 ≠ [] ∧
    (∃ m M,
      (updateDateRange [⟨1, 0, 1, 301, false⟩, ⟨2, 0, 2, 105, false⟩,
          ⟨3, 0, 3, 620, false⟩] ⟨none, none⟩ 0).1 = (some m, some M) ∧
      (updateDateRange [⟨1, 0, 1, 301, false⟩, ⟨2, 0, 2, 105, false⟩,
          ⟨3, 0, 3, 620, false⟩] ⟨none, none⟩ 0).2.rangeStart = some m ∧
      (updateDateRange [⟨1, 0, 1, 301, false⟩, ⟨2, 0, 2, 105, false⟩,
          ⟨3, 0, 3, 620, false⟩] ⟨none, none⟩ 0).2.rangeEnd = some M ∧
      m ∈ (laneSiblings [⟨1, 0, 1, 301, false⟩, ⟨2, 0, 2, 105, false⟩,
          ⟨3, 0, 3, 620, false⟩] 0).map Ev.date ∧
      M ∈ (laneSiblings [⟨1, 0, 1, 301, false⟩, ⟨2, 0, 2, 105, false⟩,
          ⟨3, 0, 3, 620, false⟩] 0).map Ev.date ∧
      (∀ x ∈ (laneSiblings [⟨1, 0, 1, 301, false⟩, ⟨2, 0, 2, 105, false⟩,
          ⟨3, 0, 3, 620, false⟩] 0).map Ev.date, m ≤ x ∧ x ≤ M)) ∧
    updateDateRange [⟨4, 1, 1, 50, true⟩] ⟨some 1, some 2⟩ 1 =
      ((none, none), ⟨none, none⟩) := by
  refine ⟨by decide, (updateDateRange_bounds _ ⟨none, none⟩ 0).2.1 (by decide), ?_⟩
  exact (updateDateRange_bounds [⟨4, 1, 1, 50, true⟩] ⟨some 1, some 2⟩ 1).1 (by decide)

/-- **C9**: calling `updateDateRange` twice in succession with no intervening
event mutation returns the same `(start, end)` pair both times, and each call
stores exactly the returned pair in the lane's bounds. -/
theorem updateDateRange_idempotent (db : List Ev) (lane : Lane) (laneId : Nat) :
    (updateDateRange db lane laneId).1 =
      (updateDateRange db (updateDateRange db lane laneId).2 laneId).1 ∧
    (updateDateRange db lane laneId).2.rangeStart =
      (updateDateRange db (updateDateRange db lane laneId).2 laneId).2.rangeStart ∧
    (updateDateRange db lane laneId).2.rangeEnd =
      (updateDateRange db (updateDateRange db lane laneId).2 laneId).2.rangeEnd ∧
    (updateDateRange db lane laneId).2.rangeStart =
      (updateDateRange db lane laneId).1.1 ∧
    (updateDateRange db lane laneId).2.rangeEnd =
      (updateDateRange db lane laneId).1.2 := by
  rw [updateDateRange_eq_spec db lane laneId,
    updateDateRange_eq_spec db _ laneId]
  cases hs : sortDates ((getMemoryLaneEvents db laneId).map Ev.date) <;> simp

/-- `eventService.getEventById`: the event with this id, filtered
`deleted_at IS NULL` (`PGRST116`, no row, maps to null). -/
def getEventById (db : List Ev) (id : Nat) : Option Ev :=
  db.find? fun e => e.id = id ∧ e.deleted = false

/-- The partial update payload of `updateEvent` — only the columns the
claims touch: `date` is `updates.event_date`, `laneId` is
`updates.memory_lane_id`; `none` models an absent field. -/
structure EvUpdates where
  date : Option Int
  laneId : Option Nat
  deriving DecidableEq, Repr

/-- `UPDATE events SET ...` column merge: present fields overwrite. -/
def applyUpdates (e : Ev) (u : EvUpdates) : Ev :=
  { e with date := u.date.getD e.date, lane := u.laneId.getD e.lane }

/-- Outcome of one event-service mutation: the value/error returned to the
caller, the events table and lane row afterwards, and the lane id passed to
`updateDateRange` when the recompute step was invoked (`none` = not
invoked). -/
structure OpResult (α : Type) where
  result : Except String α
  events : List Ev
  lane : Lane
  recomputedLane : Option Nat

/-- The `try { await updateDateRange(...) } catch { console.error(...) }`
wrapper: on success the lane row becomes whatever the recompute produced; a
failure is swallowed and the lane row stays as it was. -/
def recoverLane (lane : Lane) (ro : Except String Lane) : Lane :=
  match ro with
  | Except.ok l => l
  | Except.error _ => lane

/-- `eventService.createEvent` including the date-range recompute step.
`ro` injects the outcome of the nested `updateDateRange` round trips (the
repository may fail); per the source, that outcome is caught and never
turned into a failure of the create. -/
def createEventFull (db : List Ev) (lane : Lane) (newId laneId : Nat)
    (suppliedPos : Option Int) (date : Int) (ro : Except String Lane) :
    OpResult Ev :=
  let r := createEvent db newId laneId suppliedPos date
  { result := Except.ok r.2
    events := r.1
    lane := recoverLane lane ro
    recomputedLane := some laneId }

/-- `eventService.updateEvent`: look up the current event first (throwing
`Event not found` when absent), apply the column update, then recompute the
date range only when `updates.event_date` is truthy — with the lane id read
from the event *before* the update. -/
def updateEvent (db : List Ev) (lane : Lane) (id : Nat) (u : EvUpdates)
    (ro : Except String Lane) : OpResult Ev :=
  match getEventById db id with
  | none =>
    { result := Except.error "Event not found"
      events := db, lane := lane, recomputedLane := none }
  | some current =>
    let db' := db.map fun e =>
      if e.id = id ∧ e.deleted = false then applyUpdates e u else e
    if u.date.isSome then
      { result := Except.ok (applyUpdates current u)
        events := db'
        lane := recoverLane lane ro
        recomputedLane := some current.lane }
    else
      { result := Except.ok (applyUpdates current u)
        events := db', lane := lane, recomputedLane := none }

/-- `eventService.deleteEvent`: look up the current event (throwing
`Event not found` when absent), soft-delete it, then recompute the date
range with the lane id read from the event before the delete; a recompute
failure is caught. -/
def deleteEvent (db : List Ev) (lane : Lane) (id : Nat)
    (ro : Except String Lane) : OpResult Unit :=
  match getEventById db id with
  | none =>
    { result := Except.error "Event not found"
      events := db, lane := lane, recomputedLane := none }
  | some current =>
    let db' := db.map fun e => if e.id = id then { e with deleted := true } else e
    { result := Except.ok ()
      events := db'
      lane := recoverLane lane ro
      recomputedLane := some current.lane }

/-- **C5**: for every event mutation whose own writes succeed, a failing
date-range recomputation is caught at its origin: the mutation still
returns success to its caller (and the lane row is simply left stale). -/
theorem recompute_failure_swallowed (db : List Ev) (lane : Lane)
    (newId laneId id : Nat) (suppliedPos : Option Int) (date : Int)
    (u : EvUpdates) (cur : Ev) (err : String)
    (hcur : getEventById db id = some cur) :
    (createEventFull db lane newId laneId suppliedPos date
        (Except.error err)).result =
      Except.ok (createEvent db newId laneId suppliedPos date).2 ∧
    (createEventFull db lane newId laneId suppliedPos date
        (Except.error err)).lane = lane ∧
    (updateEvent db lane id u (Except.error err)).result =
      Except.ok (applyUpdates cur u) ∧
    (updateEvent db lane id u (Except.error err)).lane = lane ∧
    (deleteEvent db lane id (Except.error err)).result = Except.ok () ∧
    (deleteEvent db lane id (Except.error err)).lane = lane := by
  refine ⟨rfl, rfl, ?_, ?_, ?_, ?_⟩ <;>
    simp [updateEvent, deleteEvent, hcur, recoverLane] <;>
    cases hd : u.date.isSome <;> simp [hd, recoverLane]

/-- Witness for C5: one event, a same-lane update carrying a date, and a
delete, all with a failing recompute. -/
theorem recompute_failure_swallowed_witness :
    (createEventFull [⟨1, 0, 1, 5, false⟩] ⟨none, none⟩ 2 0 none 7
        (Except.error "down")).result =
      Except.ok (createEvent [⟨1, 0, 1, 5, false⟩] 2 0 none 7).2 ∧
    (createEventFull [⟨1, 0, 1, 5, false⟩] ⟨none, none⟩ 2 0 none 7
        (Except.error "down")).lane = ⟨none, none⟩ ∧
    (updateEvent [⟨1, 0, 1, 5, false⟩] ⟨none, none⟩ 1 ⟨some 9, none⟩
        (Except.error "down")).result =
      Except.ok (applyUpdates ⟨1, 0, 1, 5, false⟩ ⟨some 9, none⟩) ∧
    (updateEvent [⟨1, 0, 1, 5, false⟩] ⟨none, none⟩ 1 ⟨some 9, none⟩
        (Except.error "down")).lane = ⟨none, none⟩ ∧
    (deleteEvent [⟨1, 0, 1, 5, false⟩] ⟨none, none⟩ 1
        (Except.error "down")).result = Except.ok () ∧
    (deleteEvent [⟨1, 0, 1, 5, false⟩] ⟨none, none⟩ 1
        (Except.error "down")).lane = ⟨none, none⟩ :=
  recompute_failure_swallowed [⟨1, 0, 1, 5, false⟩] ⟨none, none⟩ 2 0 1
    none 7 ⟨some 9, none⟩ ⟨1, 0, 1, 5, false⟩ "down" (by decide)

/-- **C7** (amended): the date-range recompute runs after every successful
event create (with the created event's lane id), after every event update
exactly when the update payload carries an `event_date` value — whether or
not that value differs from the stored one — and after every event
soft-delete; for update and delete it is passed the lane id read from the
event before the triggering write was applied (even when the update itself
moves the event to another lane). -/
theorem recompute_invocation_points (db : List Ev) (lane : Lane)
    (newId laneId id : Nat) (suppliedPos : Option Int) (date : Int)
    (u : EvUpdates) (cur : Ev) (ro : Except String Lane)
    (hcur : getEventById db id = some cur) :
    (createEventFull db lane newId laneId suppliedPos date ro).recomputedLane =
      some laneId ∧
    (updateEvent db lane id u ro).recomputedLane =
      (if u.date.isSome then some cur.lane else none) ∧
    (deleteEvent db lane id ro).recomputedLane = some cur.lane := by
  refine ⟨rfl, ?_, ?_⟩
  · cases hd : u.date.isSome <;> simp [updateEvent, hcur, hd]
  · simp [deleteEvent, hcur]

/-- Witness for C7's amended theorem: the update carries a date and moves
event 1 from lane 0 to lane 3, yet the recompute targets the old lane 0. -/
theorem recompute_invocation_points_witness :
    (createEventFull [⟨1, 0, 1, 5, false⟩] ⟨none, none⟩ 2 4 none 7
        (Except.ok ⟨some 7, some 7⟩)).recomputedLane = some 4 ∧
    (updateEvent [⟨1, 0, 1, 5, false⟩] ⟨none, none⟩ 1 ⟨some 9, some 3⟩
        (Except.ok ⟨some 9, some 9⟩)).recomputedLane =
      (if (⟨some 9, some 3⟩ : EvUpdates).date.isSome then
        some (⟨1, 0, 1, 5, false⟩ : Ev).lane else none) ∧
    (deleteEvent [⟨1, 0, 1, 5, false⟩] ⟨none, none⟩ 1
        (Except.ok ⟨none, none⟩)).recomputedLane =
      some (⟨1, 0, 1, 5, false⟩ : Ev).lane :=
  recompute_invocation_points [⟨1, 0, 1, 5, false⟩] ⟨none, none⟩ 2 4 1 none 7
    ⟨some 9, some 3⟩ ⟨1, 0, 1, 5, false⟩ (Except.ok ⟨some 9, some 9⟩) (by decide)

/-- **C7** counterexample: the claim requires the recompute after an update
*exactly when the update changes `event_date`*.  The code only tests
presence (`if (updates.event_date)`): updating event 1 with the very date it
already holds leaves the events table unchanged, yet the recompute runs
(against lane 0). -/
theorem update_same_date_still_recomputes :
    (updateEvent [⟨1, 0, 1, 5, false⟩] ⟨none, none⟩ 1 ⟨some 5, none⟩
        (Except.ok ⟨some 5, some 5⟩)).events = [⟨1, 0, 1, 5, false⟩] ∧
    (updateEvent [⟨1, 0, 1, 5, false⟩] ⟨none, none⟩ 1 ⟨some 5, none⟩
        (Except.ok ⟨some 5, some 5⟩)).recomputedLane = some 0 := by
  exact ⟨by decide, by decide⟩

/-- Position of the event row with id `j`, if present (first match). -/
def lookupEvPos (db : List Ev) (j : Nat) : Option Int :=
  (db.find? fun e => e.id = j).map Ev.pos

/-- One `reorderEvents` write: `UPDATE events SET order_position = p`
scoped by id, `memory_lane_id` and `deleted_at IS NULL`. -/
def writeEvPos (db : List Ev) (laneId id : Nat) (p : Int) : List Ev :=
  db.map fun e =>
    if e.id = id ∧ e.lane = laneId ∧ e.deleted = false then { e with pos := p }
    else e

/-- The write sequence of `reorderEvents`.  `failSet` injects which writes
the repository fails; a failed write leaves the row set untouched (and its
error value is never looked at by the caller). -/
def applyOrders (db : List Ev) (laneId : Nat) (orders : List (Nat × Int))
    (failSet : Nat → Bool) : List Ev :=
  orders.foldl
    (fun d o => if failSet o.1 then d else writeEvPos d laneId o.1 o.2) db

/-- `eventService.reorderEvents`: one independent write per
`(id, order_position)` pair (`Promise.all`); the per-write `{error}` results
are never inspected, so the call always resolves successfully. -/
def reorderEvents (db : List Ev) (laneId : Nat) (orders : List (Nat × Int))
    (failSet : Nat → Bool) : Except String Unit × List Ev :=
  (Except.ok (), applyOrders db laneId orders failSet)

theorem lookupEvPos_writeEvPos (db : List Ev) (L i : Nat) (p : Int) (j : Nat) :
    lookupEvPos (writeEvPos db L i p) j =
      (db.find? fun e => e.id = j).map
        (fun e => if e.id = i ∧ e.lane = L ∧ e.deleted = false then p else e.pos) := by
  rw [lookupEvPos, writeEvPos, List.find?_map, Option.map_map]
  have hpred : ((fun e : Ev => decide (e.id = j)) ∘ fun e : Ev =>
      if e.id = i ∧ e.lane = L ∧ e.deleted = false then { e with pos := p } else e) =
      fun e : Ev => decide (e.id = j) := by
    funext e
    by_cases hc : e.id = i ∧ e.lane = L ∧ e.deleted = false <;> simp [hc]
  have hfun : (Ev.pos ∘ fun e : Ev =>
      if e.id = i ∧ e.lane = L ∧ e.deleted = false then { e with pos := p } else e) =
      fun e : Ev => if e.id = i ∧ e.lane = L ∧ e.deleted = false then p else e.pos := by
    funext e
    by_cases hc : e.id = i ∧ e.lane = L ∧ e.deleted = false <;> simp [hc]
  rw [hpred, hfun]

theorem lookupEvPos_writeEvPos_ne (db : List Ev) (L i : Nat) (p : Int) (j : Nat)
    (h : j ≠ i) : lookupEvPos (writeEvPos db L i p) j = lookupEvPos db j := by
  rw [lookupEvPos_writeEvPos, lookupEvPos]
  cases hf : db.find? (fun e => e.id = j) with
  | none => rfl
  | some e =>
    have hej : e.id = j := by simpa using List.find?_some hf
    have : ¬ (e.id = i ∧ e.lane = L ∧ e.deleted = false) := by
      intro hc
      exact h (by omega)
    simp [this]

theorem map_id_writeEvPos (db : List Ev) (L i : Nat) (p : Int) :
    (writeEvPos db L i p).map Ev.id = db.map Ev.id := by
  rw [writeEvPos, List.map_map]
  apply List.map_congr_left
  intro x _
  by_cases h : x.id = i ∧ x.lane = L ∧ x.deleted = false <;> simp [h]

theorem find?_id_of_mem (db : List Ev) (e : Ev)
    (hnd : (db.map Ev.id).Nodup) (he : e ∈ db) :
    db.find? (fun x => x.id = e.id) = some e := by
  induction db with
  | nil => simp at he
  | cons y ys ih =>
    simp only [List.map_cons, List.nodup_cons] at hnd
    rcases List.mem_cons.mp he with hey | hes
    · simp [List.find?, hey]
    · by_cases hye : y.id = e.id
      · exact absurd (hye ▸ List.mem_map_of_mem Ev.id hes) hnd.1
      · simpa [List.find?, hye] using ih hnd.2 hes

theorem lookupEvPos_applyOrders_notmem (db : List Ev) (L : Nat)
    (orders : List (Nat × Int)) (failSet : Nat → Bool) (j : Nat)
    (h : j ∉ orders.map Prod.fst) :
    lookupEvPos (applyOrders db L orders failSet) j = lookupEvPos db j := by
  induction orders generalizing db with
  | nil => rfl
  | cons o os ih =>
    simp only [List.map_cons, List.mem_cons, not_or] at h
    show lookupEvPos
        (applyOrders (if failSet o.1 then db else writeEvPos db L o.1 o.2) L os
          failSet) j = _
    rw [ih _ h.2]
    by_cases hf : failSet o.1 = true
    · simp [hf]
    · simp only [Bool.not_eq_true] at hf
      simp [hf]
      exact lookupEvPos_writeEvPos_ne db L o.1 o.2 j h.1

theorem lookupEvPos_applyOrders (db : List Ev) (L : Nat)
    (orders : List (Nat × Int)) (failSet : Nat → Bool)
    (hnddb : (db.map Ev.id).Nodup) (hndord : (orders.map Prod.fst).Nodup) :
    ∀ o ∈ orders,
      (failSet o.1 = true →
        lookupEvPos (applyOrders db L orders failSet) o.1 = lookupEvPos db o.1) ∧
      (failSet o.1 = false →
        ∀ e ∈ db, e.id = o.1 → e.lane = L → e.deleted = false →
          lookupEvPos (applyOrders db L orders failSet) o.1 = some o.2) := by
  induction orders generalizing db with
  | nil =>
    intro o ho
    simp at ho
  | cons hd os ih =>
    intro o ho
    simp only [List.map_cons, List.nodup_cons] at hndord
    have hstep : applyOrders db L (hd :: os) failSet =
        applyOrders (if failSet hd.1 then db else writeEvPos db L hd.1 hd.2) L os
          failSet := rfl
    rcases List.mem_cons.mp ho with rfl | hos
    · constructor
      · intro hf
        rw [hstep, lookupEvPos_applyOrders_notmem _ _ _ _ _ hndord.1]
        simp [hf]
      · intro hf e he heid helane hedel
        rw [hstep, lookupEvPos_applyOrders_notmem _ _ _ _ _ hndord.1]
        simp only [hf, Bool.false_eq_true, if_false]
        rw [lookupEvPos_writeEvPos, ← heid, find?_id_of_mem db e hnddb he]
        simp [heid, helane, hedel]
    · have hne : o.1 ≠ hd.1 := by
        intro hc
        exact hndord.1 (hc ▸ List.mem_map_of_mem Prod.fst hos)
      have hnd1 : ((if failSet hd.1 then db
          else writeEvPos db L hd.1 hd.2).map Ev.id).Nodup := by
        by_cases hff : failSet hd.1 = true <;>
          simp [hff, map_id_writeEvPos, hnddb]
      have IH := ih (if failSet hd.1 then db else writeEvPos db L hd.1 hd.2)
        hnd1 hndord.2 o hos
      constructor
      · intro hf
        rw [hstep, IH.1 hf]
        by_cases hff : failSet hd.1 = true
        · simp [hff]
        · simp only [Bool.not_eq_true] at hff
          simp [hff]
          exact lookupEvPos_writeEvPos_ne db L hd.1 hd.2 o.1 hne
      · intro hf e he heid helane hedel
        have he1 : e ∈ (if failSet hd.1 then db else writeEvPos db L hd.1 hd.2) := by
          by_cases hff : failSet hd.1 = true
          · simpa [hff] using he
          · simp only [Bool.not_eq_true] at hff
            simp only [hff, Bool.false_eq_true, if_false]
            refine List.mem_map.mpr ⟨e, he, ?_⟩
            have : ¬ (e.id = hd.1 ∧ e.lane = L ∧ e.deleted = false) := by
              intro hc
              exact hne (by omega)
            simp [this]
        rw [hstep]
        exact IH.2 hf e he1 heid helane hedel

/-- The renumbering loop of `setPrimaryImage` with injected per-sibling
write failures: a failed write leaves the rows untouched, its error value is
discarded (the loop never checks the update result), and the running
counter `position++` advances regardless. -/
def renumberLoopF (db : List Img) (imageId : Nat) (images : List Img)
    (start : Int) (failSet : Nat → Bool) : List Img :=
  match images with
  | [] => db
  | img :: rest =>
    if img.id = imageId then renumberLoopF db imageId rest start failSet
    else
      renumberLoopF (if failSet img.id then db else writePos db img.id start)
        imageId rest (start + 1) failSet

/-- `eventService.setPrimaryImage` with injected failures: the target
image's own write is error-checked and thrown (`if (updateError) throw`);
the per-sibling loop writes are not. -/
def setPrimaryImageF (db : List Img) (imageId : Nat) (targetFails : Bool)
    (failSet : Nat → Bool) : Except String (List Img) :=
  if targetFails then Except.error "update failed"
  else Except.ok
    (renumberLoopF (writePos db imageId 0) imageId (sortImgs db) 1 failSet)

theorem lookupPos_renumberLoopF_notmem (db : List Img) (imageId : Nat)
    (images : List Img) (start : Int) (failSet : Nat → Bool) (j : Nat)
    (h : j ∉ images.map Img.id) :
    lookupPos (renumberLoopF db imageId images start failSet) j =
      lookupPos db j := by
  induction images generalizing db start with
  | nil => rfl
  | cons img rest ih =>
    simp only [List.map_cons, List.mem_cons, not_or] at h
    by_cases he : img.id = imageId
    · simpa [renumberLoopF, he] using ih db start h.2
    · rw [renumberLoopF]
      simp only [he, if_false]
      rw [ih _ _ h.2]
      by_cases hf : failSet img.id = true
      · simp [hf]
      · simp only [Bool.not_eq_true] at hf
        simp only [hf, Bool.false_eq_true, if_false]
        exact lookupPos_writePos_ne db img.id start j h.1

theorem lookupPos_renumberLoopF (db : List Img) (imageId : Nat)
    (images : List Img) (start : Int) (failSet : Nat → Bool)
    (hnd : (images.map Img.id).Nodup) (k : Nat)
    (hk : k < (images.filter (fun x => x.id ≠ imageId)).length) :
    lookupPos (renumberLoopF db imageId images start failSet)
        ((images.filter (fun x => x.id ≠ imageId)).getD k dImg).id =
      (if failSet ((images.filter (fun x => x.id ≠ imageId)).getD k dImg).id then
        lookupPos db ((images.filter (fun x => x.id ≠ imageId)).getD k dImg).id
      else
        (lookupPos db
            ((images.filter (fun x => x.id ≠ imageId)).getD k dImg).id).map
          (fun _ => start + k)) := by
  induction images generalizing db start k with
  | nil => simp at hk
  | cons img rest ih =>
    simp only [List.map_cons, List.nodup_cons] at hnd
    by_cases he : img.id = imageId
    · have hfilter : (img :: rest).filter (fun x => x.id ≠ imageId) =
          rest.filter (fun x => x.id ≠ imageId) := by
        simp [List.filter_cons, he]
      rw [renumberLoopF]
      simp only [he, if_true]
      rw [hfilter] at hk ⊢
      exact ih db start hnd.2 k hk
    · have hfilter : (img :: rest).filter (fun x => x.id ≠ imageId) =
          img :: rest.filter (fun x => x.id ≠ imageId) := by
        simp [List.filter_cons, he]
      rw [renumberLoopF]
      simp only [he, if_false]
      rw [hfilter] at hk ⊢
      match k with
      | 0 =>
        rw [List.getD_cons_zero]
        have himg : img.id ∉ rest.map Img.id := hnd.1
        rw [lookupPos_renumberLoopF_notmem _ _ _ _ _ _ himg]
        by_cases hf : failSet img.id = true
        · simp [hf]
        · simp only [Bool.not_eq_true] at hf
          simp only [hf, Bool.false_eq_true, if_false]
          rw [lookupPos_writePos]
          simp
      | k + 1 =>
        rw [List.getD_cons_succ]
        have hk' : k < (rest.filter (fun x => x.id ≠ imageId)).length := by
          simpa using hk
        have hne : ((rest.filter (fun x => x.id ≠ imageId)).getD k dImg).id ≠
            img.id := by
          intro hcontra
          have hmem : ((rest.filter (fun x => x.id ≠ imageId)).getD k dImg) ∈
              rest.filter (fun x => x.id ≠ imageId) := by
            rw [List.getD_eq_getElem _ _ hk']
            exact List.getElem_mem hk'
          have hmem' : ((rest.filter (fun x => x.id ≠ imageId)).getD k dImg) ∈
              rest := List.mem_of_mem_filter hmem
          exact hnd.1 (hcontra ▸ List.mem_map_of_mem Img.id hmem')
        have hdb' : lookupPos
            (if failSet img.id then db else writePos db img.id start)
            ((rest.filter (fun x => x.id ≠ imageId)).getD k dImg).id =
            lookupPos db ((rest.filter (fun x => x.id ≠ imageId)).getD k dImg).id := by
          by_cases hf : failSet img.id = true
          · simp [hf]
          · simp only [Bool.not_eq_true] at hf
            simp only [hf, Bool.false_eq_true, if_false]
            exact lookupPos_writePos_ne _ _ _ _ hne
        have := ih (if failSet img.id then db else writePos db img.id start)
          (start + 1) hnd.2 k hk'
        rw [hdb'] at this
        rw [this]
        by_cases hf2 : failSet
            ((rest.filter (fun x => x.id ≠ imageId)).getD k dImg).id = true
        · rw [if_pos hf2, if_pos hf2]
        · rw [if_neg hf2, if_neg hf2]
          congr 1
          funext
          push_cast
          ring

/-- **C6** (amended): in the multi-step renumberings — `reorderEvents` and
the per-sibling loop of `setPrimaryImage` — each sibling update is an
independent write, and a failure after earlier successes leaves the
previously-applied writes in place (they are not undone).  However, the
failure is NOT reported to the caller: the per-write error values are
discarded (`reorderEvents` never inspects its `Promise.all` results, and
the `setPrimaryImage` loop never checks its update results), so both
operations complete successfully; siblings whose write failed simply keep
their prior position. -/
theorem renumbering_partial_failure (db : List Ev) (L : Nat)
    (orders : List (Nat × Int)) (failSet : Nat → Bool) (db2 : List Img)
    (imageId : Nat) (failSet2 : Nat → Bool)
    (hnddb : (db.map Ev.id).Nodup) (hndord : (orders.map Prod.fst).Nodup)
    (hnd2 : (db2.map Img.id).Nodup) :
    (reorderEvents db L orders failSet).1 = Except.ok () ∧
    (∀ o ∈ orders, failSet o.1 = true →
      lookupEvPos (reorderEvents db L orders failSet).2 o.1 =
        lookupEvPos db o.1) ∧
    (∀ o ∈ orders, failSet o.1 = false →
      ∀ e ∈ db, e.id = o.1 → e.lane = L → e.deleted = false →
        lookupEvPos (reorderEvents db L orders failSet).2 o.1 = some o.2) ∧
    (∃ res, setPrimaryImageF db2 imageId false failSet2 = Except.ok res) ∧
    (∀ res, setPrimaryImageF db2 imageId false failSet2 = Except.ok res →
      ∀ k, k < ((sortImgs db2).filter (fun x => x.id ≠ imageId)).length →
        (failSet2
            (((sortImgs db2).filter (fun x => x.id ≠ imageId)).getD k dImg).id =
              false →
          lookupPos res
              (((sortImgs db2).filter (fun x => x.id ≠ imageId)).getD k dImg).id =
            some ((1 : Int) + k)) ∧
        (failSet2
            (((sortImgs db2).filter (fun x => x.id ≠ imageId)).getD k dImg).id =
              true →
          lookupPos res
              (((sortImgs db2).filter (fun x => x.id ≠ imageId)).getD k dImg).id =
            lookupPos db2
              (((sortImgs db2).filter (fun x => x.id ≠ imageId)).getD k dImg).id)) := by
  refine ⟨rfl, ?_, ?_, ⟨_, rfl⟩, ?_⟩
  · intro o ho hf
    exact (lookupEvPos_applyOrders db L orders failSet hnddb hndord o ho).1 hf
  · intro o ho hf e he heid helane hedel
    exact (lookupEvPos_applyOrders db L orders failSet hnddb hndord o ho).2 hf
      e he heid helane hedel
  · intro res hres k hk
    have hres' : renumberLoopF (writePos db2 imageId 0) imageId (sortImgs db2) 1
        failSet2 = res := by
      simpa [setPrimaryImageF] using hres
    subst hres'
    set e := ((sortImgs db2).filter (fun x => x.id ≠ imageId)).getD k dImg with hedef
    have hmemf : e ∈ (sortImgs db2).filter (fun x => x.id ≠ imageId) := by
      rw [hedef, List.getD_eq_getElem _ _ hk]
      exact List.getElem_mem hk
    have heid : e.id ≠ imageId := by simpa using List.of_mem_filter hmemf
    have hmemdb : e ∈ db2 :=
      (sortImgs_perm db2).mem_iff.mp (List.mem_of_mem_filter hmemf)
    have hndsort : ((sortImgs db2).map Img.id).Nodup :=
      (((sortImgs_perm db2).map Img.id).nodup_iff).mpr hnd2
    have h := lookupPos_renumberLoopF (writePos db2 imageId 0) imageId
      (sortImgs db2) 1 failSet2 hndsort k hk
    rw [← hedef] at h
    rw [lookupPos_writePos_ne _ _ _ _ heid] at h
    constructor
    · intro hf
      rw [h, if_neg (by rw [hf]; exact Bool.false_ne_true),
        lookupPos_of_mem db2 e hnd2 hmemdb]
      rfl
    · intro hf
      rw [h, if_pos hf]

/-- Witness for C6's amended theorem: two events in lane 0, a batch reorder
whose second write fails, and a promote with no sibling failures. -/
theorem renumbering_partial_failure_witness :
    lookupEvPos (reorderEvents [⟨1, 0, 1, 0, false⟩, ⟨2, 0, 2, 0, false⟩] 0
        [(1, 10), (2, 20)] (fun i => i == 2)).2 2 =
      lookupEvPos [⟨1, 0, 1, 0, false⟩, ⟨2, 0, 2, 0, false⟩] 2 ∧
    lookupEvPos (reorderEvents [⟨1, 0, 1, 0, false⟩, ⟨2, 0, 2, 0, false⟩] 0
        [(1, 10), (2, 20)] (fun i => i == 2)).2 1 = some 10 ∧
    (∃ res, setPrimaryImageF [⟨1, 0⟩, ⟨2, 1⟩] 2 false (fun _ => false) =
      Except.ok res) := by
  have h := renumbering_partial_failure [⟨1, 0, 1, 0, false⟩, ⟨2, 0, 2, 0, false⟩]
    0 [(1, 10), (2, 20)] (fun i => i == 2) [⟨1, 0⟩, ⟨2, 1⟩] 2 (fun _ => false)
    (by decide) (by decide) (by decide)
  exact ⟨h.2.1 (2, 20) (by decide) (by decide),
    h.2.2.1 (1, 10) (by decide) (by decide) ⟨1, 0, 1, 0, false⟩ (by decide)
      (by decide) (by decide) (by decide),
    h.2.2.2.1⟩

/-- **C6** counterexample: lane 0 holds events 1 and 2; the batch reorder
`[(1, 10), (2, 20)]` has its second write fail after the first succeeded.
The claim demands a failure report, but the operation resolves with success
(`Except.ok ()`), leaving event 1 at its new position 10 and event 2 at its
old position 2. -/
theorem reorder_failure_unreported :
    (reorderEvents [⟨1, 0, 1, 0, false⟩, ⟨2, 0, 2, 0, false⟩] 0
        [(1, 10), (2, 20)] (fun i => i == 2)).1 = Except.ok () ∧
    (reorderEvents [⟨1, 0, 1, 0, false⟩, ⟨2, 0, 2, 0, false⟩] 0
        [(1, 10), (2, 20)] (fun i => i == 2)).2 =
      [⟨1, 0, 10, 0, false⟩, ⟨2, 0, 2, 0, false⟩] := by
  exact ⟨rfl, by decide⟩

/-- `toLocaleDateString('en-US', { month: 'long' })` month names, with the
month 1-based as parsed from the ISO string. -/
def monthName : Nat → String
  | 1 => "January"
  | 2 => "February"
  | 3 => "March"
  | 4 => "April"
  | 5 => "May"
  | 6 => "June"
  | 7 => "July"
  | 8 => "August"
  | 9 => "September"
  | 10 => "October"
  | 11 => "November"
  | 12 => "December"
  | _ => "Invalid"

/-- Decimal value of an ASCII digit character. -/
def digitVal (c : Char) : Nat := c.toNat - 48

/-- Decimal number denoted by a digit string. -/
def digitsToNat (l : List Char) : Nat :=
  l.foldl (fun acc c => acc * 10 + digitVal c) 0

/-- `(getFullYear(), month)` of `new Date(s)` for an ISO `YYYY-MM-DD`
string evaluated in UTC: the year is the first four characters, the month
the two characters after the first dash (1-based). -/
def parseYM (s : String) : Nat × Nat :=
  (digitsToNat (s.data.take 4), digitsToNat ((s.data.drop 5).take 2))

/-- `memoryLaneService.formatDateRange`: null start short-circuits to
`"No events yet"`; a null end is replaced by the start date; then the
output format is chosen by comparing year and month. -/
def formatDateRange (startDate endDate : Option String) : String :=
  match startDate with
  | none => "No events yet"
  | some s =>
    let start := parseYM s
    let e := match endDate with
      | some t => parseYM t
      | none => start
    if start.1 = e.1 ∧ start.2 = e.2 then
      monthName start.2 ++ " " ++ toString start.1
    else if start.1 = e.1 then
      monthName start.2 ++ " - " ++ monthName e.2 ++ " " ++ toString e.1
    else
      monthName start.2 ++ " " ++ toString start.1 ++ " - " ++
        monthName e.2 ++ " " ++ toString e.1

/-- **C8**: `formatDateRange` returns "No events yet" when the start date is
null; "<Month> <Year>" when start and end fall in the same month of the same
year; "<Month> - <Month> <Year>" when they fall in the same year but
different months; and "<Month> <Year> - <Month> <Year>" when they fall in
different years. -/
theorem formatDateRange_branches (s e : String) :
    (∀ x, formatDateRange none x = "No events yet") ∧
    ((parseYM s).1 = (parseYM e).1 → (parseYM s).2 = (parseYM e).2 →
      formatDateRange (some s) (some e) =
        monthName (parseYM s).2 ++ " " ++ toString (parseYM s).1) ∧
    ((parseYM s).1 = (parseYM e).1 → (parseYM s).2 ≠ (parseYM e).2 →
      formatDateRange (some s) (some e) =
        monthName (parseYM s).2 ++ " - " ++ monthName (parseYM e).2 ++ " " ++
          toString (parseYM e).1) ∧
    ((parseYM s).1 ≠ (parseYM e).1 →
      formatDateRange (some s) (some e) =
        monthName (parseYM s).2 ++ " " ++ toString (parseYM s).1 ++ " - " ++
          monthName (parseYM e).2 ++ " " ++ toString (parseYM e).1) := by
  refine ⟨fun _ => rfl, ?_, ?_, ?_⟩
  · intro h1 h2
    simp [formatDateRange, h1, h2]
  · intro h1 h2
    simp [formatDateRange, h1, h2]
  · intro h1
    simp [formatDateRange, h1]

/-- Witness for C8 at the spec's own P7 examples. -/
theorem formatDateRange_branches_witness :
    formatDateRange (some "2023-01-05") (some "2023-01-20") = "January 2023" ∧
    formatDateRange (some "2023-01-05") (some "2023-06-20") =
      "January - June 2023" ∧
    formatDateRange (some "2022-11-01") (some "2023-02-01") =
      "November 2022 - February 2023" ∧
    formatDateRange none (some "2024-01-01") = "No events yet" := by
  refine ⟨?_, ?_, ?_,
    (formatDateRange_branches "2024-01-01" "2024-01-01").1 (some "2024-01-01")⟩
  · exact ((formatDateRange_branches "2023-01-05" "2023-01-20").2.1
      rfl rfl).trans (by decide)
  · exact ((formatDateRange_branches "2023-01-05" "2023-06-20").2.2.1
      rfl (by decide)).trans (by decide)
  · exact ((formatDateRange_branches "2022-11-01" "2023-02-01").2.2.2
      (by decide)).trans (by decide)

end MemoryLane
